import Mathlib

set_option maxRecDepth 100000

/-
Verification development for the "Dream Takeoff" stock screener (src/app.py).

The evaluation core is the function check_dream_strategy (app.py lines
149-206).  It works on pandas/numpy float64 data, so scalar values are
modelled by the type FVal below:
a finite value (kept exact as a rational), positive infinity, negative
infinity, or NaN.  The float64 operations the source uses (addition in
rolling sums, subtraction in diff, division and multiplication in the
bias formula, ordered comparisons) are embedded with their IEEE-754
semantics: NaN propagates through arithmetic and makes every ordered
comparison false, division of a nonzero finite value by zero gives a
signed infinity, and zero divided by zero gives NaN.  Exact rationals
stand in for float64: every concrete input used below stays well inside
the range where float64 arithmetic is exact, so no rounding is modelled.
-/

namespace TWStock

/-- Scalar values of the pandas/numpy float64 arithmetic used in app.py:
a finite value (modelled exactly as a rational number), positive
infinity, negative infinity, or NaN (which pandas also uses as the
missing-data marker). -/
inductive FVal where
  | num : ℚ → FVal
  | pinf : FVal
  | ninf : FVal
  | nan : FVal
deriving DecidableEq, Repr

namespace FVal

/-- IEEE-754 addition: NaN propagates, infinities of opposite sign give NaN. -/
def fadd : FVal → FVal → FVal
  | nan, _ => nan
  | _, nan => nan
  | pinf, ninf => nan
  | ninf, pinf => nan
  | pinf, _ => pinf
  | _, pinf => pinf
  | ninf, _ => ninf
  | _, ninf => ninf
  | num a, num b => num (a + b)

/-- IEEE-754 subtraction: NaN propagates, inf minus inf of the same sign is NaN. -/
def fsub : FVal → FVal → FVal
  | nan, _ => nan
  | _, nan => nan
  | pinf, pinf => nan
  | ninf, ninf => nan
  | pinf, _ => pinf
  | _, pinf => ninf
  | ninf, _ => ninf
  | _, ninf => pinf
  | num a, num b => num (a - b)

/-- IEEE-754 multiplication: NaN propagates, infinity times zero is NaN,
otherwise infinities follow the sign rule. -/
def fmul : FVal → FVal → FVal
  | nan, _ => nan
  | _, nan => nan
  | num a, num b => num (a * b)
  | pinf, pinf => pinf
  | pinf, ninf => ninf
  | ninf, pinf => ninf
  | ninf, ninf => pinf
  | pinf, num b => if 0 < b then pinf else if b < 0 then ninf else nan
  | num a, pinf => if 0 < a then pinf else if a < 0 then ninf else nan
  | ninf, num b => if 0 < b then ninf else if b < 0 then pinf else nan
  | num a, ninf => if 0 < a then ninf else if a < 0 then pinf else nan

/-- IEEE-754 division as numpy performs it on float64 scalars: NaN
propagates, a nonzero finite value divided by zero gives a signed
infinity, zero divided by zero gives NaN (numpy emits a warning, not an
exception), a finite value divided by infinity gives zero, infinity
divided by infinity gives NaN. -/
def fdiv : FVal → FVal → FVal
  | nan, _ => nan
  | _, nan => nan
  | num a, num b =>
      if b = 0 then (if 0 < a then pinf else if a < 0 then ninf else nan)
      else num (a / b)
  | pinf, num b => if 0 ≤ b then pinf else ninf
  | ninf, num b => if 0 ≤ b then ninf else pinf
  | num _, pinf => num 0
  | num _, ninf => num 0
  | pinf, pinf => nan
  | pinf, ninf => nan
  | ninf, pinf => nan
  | ninf, ninf => nan

/-- IEEE-754 strictly-less comparison: any comparison with NaN is false. -/
def flt : FVal → FVal → Bool
  | nan, _ => false
  | _, nan => false
  | num a, num b => decide (a < b)
  | pinf, _ => false
  | _, pinf => true
  | ninf, ninf => false
  | ninf, _ => true
  | _, ninf => false

/-- IEEE-754 strictly-greater comparison: any comparison with NaN is false. -/
def fgt (a b : FVal) : Bool := flt b a

/-- Tests for the NaN marker, as pandas isna does on float64 data. -/
def isNan : FVal → Bool
  | nan => true
  | _ => false

/-- Tests for a finite (non-NaN, non-infinite) value. -/
def isNum : FVal → Bool
  | num _ => true
  | _ => false

end FVal

open FVal

/-- Positional indexing from the end: xs.iloc[-k] in pandas.  The none
result models the IndexError pandas raises when the offset is out of
range (k is 0 or exceeds the length). -/
def iloc (xs : List FVal) (k : Nat) : Option FVal :=
  if 0 < k ∧ k ≤ xs.length then xs.get? (xs.length - k) else none

/-- The value of iloc when it succeeds, with NaN as an (unused) default. -/
def ilocD (xs : List FVal) (k : Nat) : FVal := (iloc xs k).getD FVal.nan

/-- The last k entries of a series: the pandas slice xs.iloc[-k:], which
returns the whole series when it is shorter than k. -/
def lastN (xs : List FVal) (k : Nat) : List FVal := xs.drop (xs.length - k)

/-- Mean of one rolling window, computed with float64 arithmetic: the sum
of the window divided by its size, so a NaN anywhere in the window makes
the result NaN, exactly as pandas rolling(k).mean() with its default
min_periods = k produces NaN whenever the window contains a NaN. -/
def windowMean (w : List FVal) : FVal :=
  fdiv (w.foldl fadd (FVal.num 0)) (FVal.num w.length)

/-- The pandas series xs.rolling(k).mean(): one entry per input entry,
NaN for the first k - 1 positions (not enough history), otherwise the
mean of the trailing window of k values ending at that position. -/
def rollingMean (xs : List FVal) (k : Nat) : List FVal :=
  (List.range xs.length).map fun i =>
    if i + 1 < k then FVal.nan else windowMean ((xs.take (i + 1)).drop (i + 1 - k))

/-- The pandas series xs.diff(): NaN in the first position, and the
difference to the previous entry everywhere else (NaN-propagating). -/
def diff (xs : List FVal) : List FVal :=
  match xs with
  | [] => []
  | _ :: t => FVal.nan :: List.zipWith fsub t xs

/-- The pandas dropna: remove every NaN entry (infinities are kept). -/
def dropNan (xs : List FVal) : List FVal := xs.filter fun v => ! v.isNan

/-- The pandas chain gt(0).all(): every entry strictly positive, true on
an empty series. -/
def allPos (xs : List FVal) : Bool := xs.all fun v => fgt v (FVal.num 0)

/-- One daily bar of the downloaded history: the Close and Volume columns
of the yfinance DataFrame.  NaN entries model missing data.  Dates are
not modelled: only the chronological order matters, which the list order
carries. -/
structure Bar where
  close : FVal
  volume : FVal
deriving DecidableEq, Repr

/-- One row of the hot-stock table that check_dream_strategy receives
(row_data in app.py): ticker and name strings and the previously fetched
latest price and volume, which are only copied into the result. -/
structure RowData where
  ticker : String
  name : String
  price_now : ℚ
  volume : ℤ
deriving DecidableEq, Repr

/-- The dict check_dream_strategy returns on a match.  The keys of the
source dict map to fields as: 代號 to ticker, 名稱 to name, 現價 to
price_now, 成交量 to volume, 乖離率 to bias (the source formats the bias
value into a percentage string; the numeric value is kept here), and
趨勢 to trend. -/
structure StrategyResult where
  ticker : String
  name : String
  price_now : ℚ
  volume : ℤ
  bias : FVal
  trend : String
deriving DecidableEq, Repr

/-- The body of check_dream_strategy (app.py lines 152-203), i.e. the
code inside the try block.  The df argument stands for the DataFrame
returned by yf.download for this ticker.  The outer Option models the
exception channel: none means an exception escapes the body (only the
iloc indexing steps can raise here), and is turned into the no-match
answer by the except handler in check_dream_strategy below.  The inner
Option is the ordinary return value: none for the no-match returns,
some r for the match dict.  The source's local variables (close, volume,
ma200_series, vol_ma20_series, cond_price, bias_val, cond_bias, and
segment_len = 10, so that segment_len + 1 = 11) are inlined here; the
named definitions after check_dream_strategy below restate them. -/
def check_body (row : RowData) (df : List Bar) (strict_mode : Bool) :
    Option (Option StrategyResult) :=
  if df.length < 205 then some none else
  (iloc (df.map Bar.close) 1).bind fun curr_price =>
  (iloc (rollingMean (df.map Bar.close) 5) 1).bind fun ma5 =>
  (iloc (rollingMean (df.map Bar.close) 20) 1).bind fun ma20 =>
  (iloc (rollingMean (df.map Bar.close) 60) 1).bind fun ma60 =>
  (iloc (rollingMean (df.map Bar.close) 120) 1).bind fun ma120 =>
  (iloc (rollingMean (df.map Bar.close) 200) 1).bind fun c_ma200 =>
  if !(fgt curr_price ma5 && fgt curr_price ma20 &&
       fgt curr_price ma60 && fgt curr_price ma120) then some none else
  (if strict_mode then
      some (allPos (dropNan (diff (lastN (rollingMean (df.map Bar.close) 200) 11))),
            allPos (dropNan (diff (lastN (rollingMean (df.map Bar.volume) 20) 11))))
    else
      (iloc (rollingMean (df.map Bar.close) 200) 1).bind fun m1 =>
      (iloc (rollingMean (df.map Bar.close) 200) 11).bind fun m11 =>
      (iloc (rollingMean (df.map Bar.volume) 20) 1).bind fun v1 =>
      (iloc (rollingMean (df.map Bar.volume) 20) 11).bind fun v11 =>
      some (fgt m1 m11, fgt v1 v11)).bind fun conds =>
  if flt (fmul (fdiv (fsub ma5 c_ma200) c_ma200) (FVal.num 100)) (FVal.num 30) &&
     conds.1 && conds.2 then
    some (some ⟨row.ticker, row.name, row.price_now, row.volume,
                fmul (fdiv (fsub ma5 c_ma200) c_ma200) (FVal.num 100),
                if strict_mode then "🔥強勢" else "📈向上"⟩)
  else some none

/-- check_dream_strategy (app.py lines 149-206): run the body and map
any escaping exception to the no-match answer, as the blanket
try/except does in the source. -/
def check_dream_strategy (row : RowData) (df : List Bar) (strict_mode : Bool) :
    Option StrategyResult :=
  (check_body row df strict_mode).getD none

/-- The Close column of the bar series. -/
def closes (df : List Bar) : List FVal := df.map Bar.close

/-- The Volume column of the bar series. -/
def volumes (df : List Bar) : List FVal := df.map Bar.volume

/-- close.iloc[-1], the latest close. -/
def currPrice (df : List Bar) : FVal := ilocD (closes df) 1

/-- close.rolling(k).mean().iloc[-1], the latest k-day moving average. -/
def maLast (df : List Bar) (k : Nat) : FVal := ilocD (rollingMean (closes df) k) 1

/-- The full MA200 series over the close column. -/
def ma200series (df : List Bar) : List FVal := rollingMean (closes df) 200

/-- The latest MA200 value. -/
def ma200last (df : List Bar) : FVal := ilocD (ma200series df) 1

/-- The full 20-day volume moving-average series. -/
def volMA20series (df : List Bar) : List FVal := rollingMean (volumes df) 20

/-- Condition 1 of the strategy (app.py lines 174-175): the latest close
strictly above each of MA5, MA20, MA60 and MA120. -/
def condPrice (df : List Bar) : Bool :=
  fgt (currPrice df) (maLast df 5) && fgt (currPrice df) (maLast df 20) &&
  fgt (currPrice df) (maLast df 60) && fgt (currPrice df) (maLast df 120)

/-- The bias value of app.py line 180: (ma5 - ma200) / ma200 * 100 in
float64 arithmetic. -/
def biasVal (df : List Bar) : FVal :=
  fmul (fdiv (fsub (maLast df 5) (ma200last df)) (ma200last df)) (FVal.num 100)

/-- The strict-mode trend test of app.py lines 187-188 applied to one
series: take the last 11 values, diff, drop NaN deltas, and require the
remaining deltas to all be strictly positive. -/
def trendStrict (ser : List FVal) : Bool := allPos (dropNan (diff (lastN ser 11)))

/-- The lenient-mode trend test of app.py lines 191-192 applied to one
series: the latest value strictly above the value ten positions earlier. -/
def trendLenient (ser : List FVal) : Bool := fgt (ilocD ser 1) (ilocD ser 11)

/-- The mode-selected trend test of app.py lines 185-192. -/
def condTrend (ser : List FVal) (strict_mode : Bool) : Bool :=
  if strict_mode then trendStrict ser else trendLenient ser

/-- Straight-line form of check_dream_strategy, stated with the named
indicator definitions above; proved equal to the embedded source in
check_body_eq below, and used as the workhorse in the proofs. -/
def checkPure (row : RowData) (df : List Bar) (strict_mode : Bool) :
    Option StrategyResult :=
  if df.length < 205 then none
  else if !condPrice df then none
  else if flt (biasVal df) (FVal.num 30) && condTrend (ma200series df) strict_mode &&
          condTrend (volMA20series df) strict_mode then
    some ⟨row.ticker, row.name, row.price_now, row.volume, biasVal df,
          if strict_mode then "🔥強勢" else "📈向上"⟩
  else none

theorem length_rollingMean (xs : List FVal) (k : Nat) :
    (rollingMean xs k).length = xs.length := by
  simp [rollingMean]

theorem iloc_eq_some (xs : List FVal) (k : Nat) (h1 : 0 < k) (h2 : k ≤ xs.length) :
    iloc xs k = some (ilocD xs k) := by
  have hidx : xs.length - k < xs.length := by omega
  unfold ilocD iloc
  rw [if_pos ⟨h1, h2⟩, List.get?_eq_get hidx]
  rfl

/-- Spec-side formalization of the day-over-day deltas of a trend window:
the list of the consecutive differences w[i+1] - w[i] of a window w.
Unlike the diff/dropna chain of the source, no NaN entry is dropped, so
on an 11-value window this is always a list of exactly 10 deltas; it is
the reading under which the spec asserts that a strict-mode match needs
all 10 deltas strictly positive. -/
def specDeltas (w : List FVal) : List FVal := List.zipWith fsub (w.drop 1) w

/-- Every entry of the series is a finite number (no NaN, no infinity). -/
def allNumList (xs : List FVal) : Bool := xs.all fun v => v.isNum

/-- Every close and every volume of the bar series is a finite number. -/
def allNumBars (df : List Bar) : Bool := allNumList (closes df) && allNumList (volumes df)

/-- Every close of the series is a finite nonnegative number.  This is
the data invariant of the spec (close is a nonnegative real; the spec
even says positive), used as a hypothesis where a claim quantifies over
valid bar series. -/
def closesNonneg (df : List Bar) : Bool :=
  (closes df).all fun v =>
    match v with
    | FVal.num q => decide (0 ≤ q)
    | _ => false

/-- Modelled from the spec: the bar-cleaning step the spec describes
(a bar with a missing/NaN close or volume is excluded from the series
before any windowing).  No such step exists in check_dream_strategy in
src/app.py; this definition follows the spec wording so that the claimed
behaviour can be compared with the code. -/
def specCleanBars (df : List Bar) : List Bar :=
  df.filter fun b => !b.close.isNan && !b.volume.isNan

/-- A synthetic uptrend series: n daily bars with close 1000 + i and
volume 1000 + i on day i, strictly rising in both columns. -/
def risingBars (n : Nat) : List Bar :=
  (List.range n).map fun i : Nat =>
    ⟨FVal.num (1000 + (i : ℚ)), FVal.num (1000 + (i : ℚ))⟩

/-- A flat series: n identical bars (close 100, volume 100). -/
def flatBars (n : Nat) : List Bar :=
  (List.range n).map fun _ => ⟨FVal.num 100, FVal.num 100⟩

/-- An all-zero series: n bars with close 0 and volume 0, the degenerate
case in which MA200 is exactly zero at the last bar. -/
def zeroBars (n : Nat) : List Bar :=
  (List.range n).map fun _ => ⟨FVal.num 0, FVal.num 0⟩

/-- The rising 205-bar series with one extra bar whose close is missing
(NaN): 206 raw bars, 205 clean ones. -/
def nanTailBars : List Bar := risingBars 205 ++ [⟨FVal.nan, FVal.num 2000⟩]

/-- A series of 206 raw bars of which only 204 are clean: the first two
bars have a NaN close (volumes 998 and 999), followed by the rising
204-bar series.  The two malformed bars lie outside every window that
the evaluation reads at the last bar, except the early MA200 positions
whose NaN deltas the dropna step discards. -/
def nanHeadBars : List Bar :=
  ⟨FVal.nan, FVal.num 998⟩ :: ⟨FVal.nan, FVal.num 999⟩ :: risingBars 204

/-- A sample row for the row_data argument. -/
def row0 : RowData := ⟨"2330", "台積電", 1204, 50000⟩

/-- The match record produced for risingBars 205 in strict mode:
bias = (1202 - 2209/2) / (2209/2) * 100 = 19500/2209 (about 8.83). -/
def R205strict : StrategyResult :=
  ⟨"2330", "台積電", 1204, 50000, FVal.num (19500/2209), "🔥強勢"⟩

/-- The match record produced for risingBars 210 in strict mode:
bias = (1207 - 2219/2) / (2219/2) * 100 = 19500/2219 (about 8.79). -/
def R210strict : StrategyResult :=
  ⟨"2330", "台積電", 1204, 50000, FVal.num (19500/2219), "🔥強勢"⟩

/-- The match record produced for nanHeadBars in strict mode:
bias = (1201 - 2207/2) / (2207/2) * 100 = 19500/2207 (about 8.84). -/
def R204match : StrategyResult :=
  ⟨"2330", "台積電", 1204, 50000, FVal.num (19500/2207), "🔥強勢"⟩



theorem ite_push_some {α : Type} (c q : Prop) [Decidable c] [Decidable q] (r : α) :
    (if c then some none else if q then some (some r) else some none) =
    some (if c then (none : Option α) else if q then some r else none) := by
  by_cases hc : c <;> by_cases hq : q <;> simp [hc, hq]

/-- The body of check_dream_strategy computed in straight-line form: no
step of the body can fail, and its return value is checkPure. -/
theorem check_body_eq (row : RowData) (df : List Bar) (m : Bool) :
    check_body row df m = some (checkPure row df m) := by
  unfold check_body checkPure
  by_cases h : df.length < 205
  · simp [h]
  · rw [if_neg h, if_neg h]
    rw [iloc_eq_some (df.map Bar.close) 1 (by omega) (by simp; omega)]
    rw [iloc_eq_some (rollingMean (df.map Bar.close) 5) 1 (by omega)
      (by rw [length_rollingMean]; simp; omega)]
    rw [iloc_eq_some (rollingMean (df.map Bar.close) 20) 1 (by omega)
      (by rw [length_rollingMean]; simp; omega)]
    rw [iloc_eq_some (rollingMean (df.map Bar.close) 60) 1 (by omega)
      (by rw [length_rollingMean]; simp; omega)]
    rw [iloc_eq_some (rollingMean (df.map Bar.close) 120) 1 (by omega)
      (by rw [length_rollingMean]; simp; omega)]
    rw [iloc_eq_some (rollingMean (df.map Bar.close) 200) 1 (by omega)
      (by rw [length_rollingMean]; simp; omega)]
    rw [iloc_eq_some (rollingMean (df.map Bar.close) 200) 11 (by omega)
      (by rw [length_rollingMean]; simp; omega)]
    rw [iloc_eq_some (rollingMean (df.map Bar.volume) 20) 1 (by omega)
      (by rw [length_rollingMean]; simp; omega)]
    rw [iloc_eq_some (rollingMean (df.map Bar.volume) 20) 11 (by omega)
      (by rw [length_rollingMean]; simp; omega)]
    simp only [Option.some_bind]
    cases m <;>
      simp only [condTrend, trendStrict, trendLenient, condPrice, currPrice, maLast,
        closes, volumes, biasVal, ma200last, ma200series, volMA20series,
        eq_self_iff_true, Bool.false_eq_true, if_true, if_false, ite_true, ite_false,
        Option.some_bind] <;>
      rw [ite_push_some]

/-- check_dream_strategy agrees with its straight-line form. -/
theorem check_dream_strategy_eq (row : RowData) (df : List Bar) (m : Bool) :
    check_dream_strategy row df m = checkPure row df m := by
  unfold check_dream_strategy
  rw [check_body_eq]
  rfl



theorem fgt_nan_right (x : FVal) : fgt x FVal.nan = false := by
  cases x <;> rfl

theorem fadd_nan_right (a : FVal) : fadd a FVal.nan = FVal.nan := by
  cases a <;> rfl

theorem foldl_fadd_nan_acc (w : List FVal) : w.foldl fadd FVal.nan = FVal.nan := by
  induction w with
  | nil => rfl
  | cons v t ih => simpa [fadd] using ih

theorem foldl_fadd_nan (w : List FVal) (a : FVal) (h : ∃ v ∈ w, v.isNan = true) :
    w.foldl fadd a = FVal.nan := by
  induction w generalizing a with
  | nil => simp at h
  | cons v t ih =>
      obtain ⟨u, hu, hnan⟩ := h
      rcases List.mem_cons.mp hu with rfl | hut
      · have hn : u = FVal.nan := by cases u <;> simp_all [FVal.isNan]
        subst hn
        rw [List.foldl_cons, fadd_nan_right]
        exact foldl_fadd_nan_acc t
      · exact ih (fadd a v) ⟨u, hut, hnan⟩

theorem windowMean_nan (w : List FVal) (h : ∃ v ∈ w, v.isNan = true) :
    windowMean w = FVal.nan := by
  rw [windowMean, foldl_fadd_nan w _ h]
  rfl

theorem exists_ratList (xs : List FVal) (h : allNumList xs = true) :
    ∃ qs : List ℚ, xs = qs.map FVal.num := by
  induction xs with
  | nil => exact ⟨[], rfl⟩
  | cons v t ih =>
      rw [allNumList, List.all_cons, Bool.and_eq_true] at h
      obtain ⟨hv, ht⟩ := h
      obtain ⟨qs, hqs⟩ := ih ht
      cases v with
      | num q => exact ⟨q :: qs, by rw [List.map_cons, hqs]⟩
      | pinf => simp [FVal.isNum] at hv
      | ninf => simp [FVal.isNum] at hv
      | nan => simp [FVal.isNum] at hv

theorem foldl_fadd_map (qs : List ℚ) (a : ℚ) :
    (qs.map FVal.num).foldl fadd (FVal.num a) = FVal.num (qs.foldl (· + ·) a) := by
  induction qs generalizing a with
  | nil => rfl
  | cons q t ih => simpa [fadd] using ih (a + q)

theorem windowMean_map (qs : List ℚ) (h : qs ≠ []) :
    windowMean (qs.map FVal.num) = FVal.num (qs.foldl (· + ·) 0 / qs.length) := by
  have hne : (qs.length : ℚ) ≠ 0 := by
    have := List.length_pos.mpr h
    exact_mod_cast Nat.pos_iff_ne_zero.mp this
  rw [windowMean, foldl_fadd_map, List.length_map]
  simp [fdiv, hne]

theorem windowMean_isNum (w : List FVal) (hw : allNumList w = true) (hne : w ≠ []) :
    (windowMean w).isNum = true := by
  obtain ⟨qs, rfl⟩ := exists_ratList w hw
  have hq : qs ≠ [] := by
    intro hq; subst hq; exact hne rfl
  rw [windowMean_map qs hq]
  rfl

theorem foldl_add_eq_sum (qs : List ℚ) (a : ℚ) : qs.foldl (· + ·) a = a + qs.sum := by
  induction qs generalizing a with
  | nil => simp
  | cons q t ih => simp [ih (a + q), add_assoc]

theorem sum_zero_of_nonneg (qs : List ℚ) (h0 : ∀ q ∈ qs, 0 ≤ q) (hs : qs.sum = 0) :
    ∀ q ∈ qs, q = 0 := by
  induction qs with
  | nil => simp
  | cons p t ih =>
      rw [List.sum_cons] at hs
      have hp : 0 ≤ p := h0 p (by simp)
      have hts : 0 ≤ t.sum := List.sum_nonneg fun q hq => h0 q (by simp [hq])
      have hp0 : p = 0 := by linarith
      have hts0 : t.sum = 0 := by linarith
      intro q hq
      rcases List.mem_cons.mp hq with rfl | hq2
      · exact hp0
      · exact ih (fun r hr => h0 r (by simp [hr])) hts0 q hq2

theorem length_lastN (xs : List FVal) (k : Nat) (h : k ≤ xs.length) :
    (lastN xs k).length = k := by
  rw [lastN, List.length_drop]
  omega

theorem lastN_mono (xs : List FVal) (a b : Nat) (hab : a ≤ b) :
    ∀ v ∈ lastN xs a, v ∈ lastN xs b := by
  intro v hv
  have hsplit : xs.drop (xs.length - a) =
      (xs.drop (xs.length - b)).drop (xs.length - a - (xs.length - b)) := by
    rw [List.drop_drop]
    congr 1
    omega
  rw [lastN, hsplit] at hv
  exact List.mem_of_mem_drop hv

theorem mem_of_mem_lastN (xs : List FVal) (k : Nat) :
    ∀ v ∈ lastN xs k, v ∈ xs := by
  intro v hv
  exact List.mem_of_mem_drop hv

theorem ilocD_rollingMean (xs : List FVal) (K k : Nat) (h1 : 0 < k) (h2 : k ≤ xs.length) :
    ilocD (rollingMean xs K) k =
      if xs.length - k + 1 < K then FVal.nan
      else windowMean ((xs.take (xs.length - k + 1)).drop (xs.length - k + 1 - K)) := by
  have hidx : xs.length - k < xs.length := by omega
  rw [ilocD, iloc, length_rollingMean, if_pos ⟨h1, h2⟩, rollingMean,
    List.get?_map, List.get?_range hidx]
  rfl

theorem maLast_windowMean (df : List Bar) (k : Nat) (h1 : 0 < k) (h2 : k ≤ df.length) :
    maLast df k = windowMean (lastN (closes df) k) := by
  have hcl : (closes df).length = df.length := by simp [closes]
  have hk : (closes df).length - 1 + 1 = (closes df).length := by omega
  rw [maLast, ilocD_rollingMean _ k 1 (by omega) (by omega), if_neg (by omega), hk,
    List.take_length, lastN]

theorem ilocD_one_mem_lastN (xs : List FVal) (k : Nat) (h1 : 0 < k) (h2 : k ≤ xs.length) :
    ilocD xs 1 ∈ lastN xs k := by
  have hidx : xs.length - 1 < xs.length := by omega
  rw [ilocD, iloc, if_pos ⟨by omega, by omega⟩, List.get?_eq_get hidx]
  apply List.get?_mem
  rw [lastN, List.get?_drop]
  have h3 : xs.length - k + (k - 1) = xs.length - 1 := by omega
  rw [h3, List.get?_eq_get hidx]
  rfl

theorem ilocD_lastN (xs : List FVal) (k j : Nat) (hj : 0 < j) (hjk : j ≤ k)
    (hk : k ≤ xs.length) :
    ilocD (lastN xs k) j = ilocD xs j := by
  have hlast : (lastN xs k).length = k := length_lastN xs k hk
  rw [ilocD, ilocD, iloc, iloc, hlast]
  rw [if_pos ⟨hj, hjk⟩, if_pos (show 0 < j ∧ j ≤ xs.length from ⟨hj, le_trans hjk hk⟩)]
  rw [lastN, List.get?_drop]
  have heq : xs.length - k + (k - j) = xs.length - j := by omega
  rw [heq]

theorem get?_rollingMean (xs : List FVal) (K i : Nat) (hi : i < xs.length) :
    (rollingMean xs K).get? i =
      some (if i + 1 < K then FVal.nan
            else windowMean ((xs.take (i + 1)).drop (i + 1 - K))) := by
  rw [rollingMean, List.get?_map, List.get?_range hi]
  rfl

theorem window_allNum (xs : List FVal) (a b : Nat) (hx : allNumList xs = true) :
    allNumList ((xs.take a).drop b) = true := by
  rw [allNumList, List.all_eq_true] at hx ⊢
  intro v hv
  exact hx v (List.mem_of_mem_take (List.mem_of_mem_drop hv))

theorem allNum_lastN_rollingMean (xs : List FVal) (K : Nat) (hK : 0 < K)
    (hx : allNumList xs = true) (hlen : K + 10 ≤ xs.length) :
    allNumList (lastN (rollingMean xs K) 11) = true := by
  rw [allNumList, List.all_eq_true]
  intro v hv
  rw [lastN, length_rollingMean] at hv
  obtain ⟨j, hj⟩ := List.mem_iff_get?.mp hv
  rw [List.get?_drop] at hj
  have hjlt : xs.length - 11 + j < xs.length := by
    have h5 := (List.get?_eq_some.mp hj).1
    rw [length_rollingMean] at h5
    exact h5
  rw [get?_rollingMean xs K _ hjlt] at hj
  have hv2 := Option.some.inj hj
  rw [if_neg (by omega)] at hv2
  subst hv2
  apply windowMean_isNum
  · exact window_allNum xs _ _ hx
  · apply List.length_pos.mp
    rw [List.length_drop, List.length_take]
    omega

theorem dropNan_map_num (qs : List ℚ) : dropNan (qs.map FVal.num) = qs.map FVal.num := by
  rw [dropNan, List.filter_eq_self]
  intro a ha
  obtain ⟨q, _, rfl⟩ := List.mem_map.mp ha
  rfl

theorem zipWith_fsub_map (as bs : List ℚ) :
    List.zipWith fsub (as.map FVal.num) (bs.map FVal.num) =
      (List.zipWith (fun a b => a - b) as bs).map FVal.num := by
  induction as generalizing bs with
  | nil => rfl
  | cons a t ih =>
      cases bs with
      | nil => rfl
      | cons b u =>
          have hhd : fsub (FVal.num a) (FVal.num b) = FVal.num (a - b) := rfl
          simp [List.zipWith_cons_cons, hhd, ih u]

theorem allPos_map_num (qs : List ℚ) :
    allPos (qs.map FVal.num) = qs.all fun q => decide (0 < q) := by
  induction qs with
  | nil => rfl
  | cons q t ih =>
      have h1 : allPos ((q :: t).map FVal.num) =
          (decide (0 < q) && allPos (t.map FVal.num)) := rfl
      rw [h1, ih, List.all_cons]

theorem dropNan_diff_map (qs : List ℚ) :
    dropNan (diff (qs.map FVal.num)) = specDeltas (qs.map FVal.num) := by
  cases qs with
  | nil => rfl
  | cons q qt =>
      have h1 : diff ((q :: qt).map FVal.num) =
          FVal.nan :: List.zipWith fsub (qt.map FVal.num) ((q :: qt).map FVal.num) := rfl
      have h2 : specDeltas ((q :: qt).map FVal.num) =
          List.zipWith fsub (qt.map FVal.num) ((q :: qt).map FVal.num) := rfl
      rw [h1, h2, zipWith_fsub_map]
      rw [dropNan, List.filter_cons]
      simp only [FVal.isNan, Bool.not_true, Bool.false_eq_true, if_false]
      exact dropNan_map_num _

theorem specDeltas_map (qs : List ℚ) :
    specDeltas (qs.map FVal.num) =
      (List.zipWith (fun a b => a - b) (qs.drop 1) qs).map FVal.num := by
  rw [specDeltas, ← List.map_drop, zipWith_fsub_map]

theorem trendStrict_spec (ser : List FVal) (hlen : 11 ≤ ser.length)
    (h : allNumList (lastN ser 11) = true) :
    trendStrict ser = allPos (specDeltas (lastN ser 11)) := by
  obtain ⟨qs, hqs⟩ := exists_ratList _ h
  rw [trendStrict, hqs, dropNan_diff_map]

theorem deltas_all_pos_lt (qs : List ℚ)
    (h : (List.zipWith (fun a b => a - b) (qs.drop 1) qs).all (fun d => decide (0 < d)) = true) :
    ∀ q0 qL, qs.get? 0 = some q0 → qs.get? (qs.length - 1) = some qL →
      2 ≤ qs.length → q0 < qL := by
  induction qs with
  | nil => intro q0 qL h0 hL h2; simp at h2
  | cons q t ih =>
      intro q0 qL h0 hL h2
      have hq0 : q = q0 := Option.some.inj h0
      subst hq0
      cases t with
      | nil => simp at h2
      | cons r t2 =>
          have hd : List.zipWith (fun a b => a - b) ((q :: r :: t2).drop 1) (q :: r :: t2) =
              (r - q) :: List.zipWith (fun a b => a - b) ((r :: t2).drop 1) (r :: t2) := rfl
          rw [hd, List.all_cons, Bool.and_eq_true] at h
          obtain ⟨hrq, hrest⟩ := h
          have hrq2 : 0 < r - q := of_decide_eq_true hrq
          have hL2 : (r :: t2).get? ((r :: t2).length - 1) = some qL := by
            have e1 : (q :: r :: t2).length - 1 = t2.length + 1 := by simp
            rw [e1, List.get?_cons_succ] at hL
            have e2 : (r :: t2).length - 1 = t2.length := by simp
            rw [e2]
            exact hL
          rcases Nat.eq_zero_or_pos t2.length with hz | hpos
          · have ht2 : t2 = [] := List.length_eq_zero.mp hz
            subst ht2
            have : r = qL := Option.some.inj hL2
            subst this
            linarith
          · have hr : r < qL := ih hrest r qL List.get?_cons_zero hL2 (by simp; omega)
            linarith

theorem ilocD_map_num (qs : List ℚ) (j : Nat) (hj : 0 < j) (hjl : j ≤ qs.length)
    (q : ℚ) (hq : qs.get? (qs.length - j) = some q) :
    ilocD (qs.map FVal.num) j = FVal.num q := by
  rw [ilocD, iloc, List.length_map, if_pos ⟨hj, hjl⟩, List.get?_map, hq]
  rfl

theorem trendStrict_imp_lenient (ser : List FVal) (hlen : 11 ≤ ser.length)
    (h : allNumList (lastN ser 11) = true) (hs : trendStrict ser = true) :
    trendLenient ser = true := by
  obtain ⟨qs, hqs⟩ := exists_ratList _ h
  have hlN : (lastN ser 11).length = 11 := length_lastN ser 11 hlen
  have hql : qs.length = 11 := by
    rw [hqs, List.length_map] at hlN
    exact hlN
  rw [trendStrict_spec ser hlen h, hqs, specDeltas_map, allPos_map_num] at hs
  have hg0 : qs.get? 0 = some (qs.get ⟨0, by omega⟩) := List.get?_eq_get (by omega)
  have hgL : qs.get? (qs.length - 1) = some (qs.get ⟨qs.length - 1, by omega⟩) :=
    List.get?_eq_get (by omega)
  have hlt : qs.get ⟨0, by omega⟩ < qs.get ⟨qs.length - 1, by omega⟩ :=
    deltas_all_pos_lt qs hs _ _ hg0 hgL (by omega)
  have hv1 : ilocD (qs.map FVal.num) 1 = FVal.num (qs.get ⟨qs.length - 1, by omega⟩) :=
    ilocD_map_num qs 1 (by omega) (by omega) _ hgL
  have hv11 : ilocD (qs.map FVal.num) 11 = FVal.num (qs.get ⟨0, by omega⟩) := by
    apply ilocD_map_num qs 11 (by omega) (by omega)
    have e : qs.length - 11 = 0 := by omega
    rw [e]
    exact hg0
  rw [trendLenient, ← ilocD_lastN ser 11 1 (by omega) (by omega) hlen,
    ← ilocD_lastN ser 11 11 (by omega) (by omega) hlen, hqs, hv1, hv11]
  exact decide_eq_true hlt

theorem checkPure_match (row : RowData) (df : List Bar) (m : Bool) (r : StrategyResult)
    (h : checkPure row df m = some r) :
    205 ≤ df.length ∧ condPrice df = true ∧ flt (biasVal df) (FVal.num 30) = true ∧
    condTrend (ma200series df) m = true ∧ condTrend (volMA20series df) m = true ∧
    r = ⟨row.ticker, row.name, row.price_now, row.volume, biasVal df,
         if m then "🔥強勢" else "📈向上"⟩ := by
  rw [checkPure] at h
  by_cases h1 : df.length < 205
  · rw [if_pos h1] at h
    exact absurd h (by simp)
  rw [if_neg h1] at h
  cases h2 : condPrice df with
  | false =>
      rw [h2] at h
      simp at h
  | true =>
      rw [h2] at h
      simp only [Bool.not_true, Bool.false_eq_true, if_false] at h
      by_cases h3 : (flt (biasVal df) (FVal.num 30) && condTrend (ma200series df) m &&
          condTrend (volMA20series df) m) = true
      · rw [if_pos h3] at h
        rw [Bool.and_eq_true, Bool.and_eq_true] at h3
        exact ⟨by omega, rfl, h3.1.1, h3.1.2, h3.2, (Option.some.inj h).symm⟩
      · rw [if_neg h3] at h
        exact absurd h (by simp)



theorem length_risingBars (n : Nat) : (risingBars n).length = n := by
  rw [risingBars, List.length_map, List.length_range]

theorem length_flatBars (n : Nat) : (flatBars n).length = n := by
  rw [flatBars, List.length_map, List.length_range]

theorem length_zeroBars (n : Nat) : (zeroBars n).length = n := by
  rw [zeroBars, List.length_map, List.length_range]

/-- C4 counterexample: the sufficiency gate counts raw bars, not usable
ones.  nanHeadBars has 206 raw bars but only 204 clean ones (fewer than
205 usable bars after cleaning), yet it passes the gate at app.py line
156 and strict mode even returns a match: the two NaN closes sit outside
every window read at the last bar, and the MA200 deltas they taint are
discarded by dropna. -/
theorem claim_C4_counterexample :
    nanHeadBars.length = 206 ∧
    (specCleanBars nanHeadBars).length = 204 ∧
    check_dream_strategy row0 nanHeadBars true = some R204match := by
  refine ⟨?_, ?_, ?_⟩
  · with_unfolding_all rfl
  · with_unfolding_all rfl
  · with_unfolding_all rfl

/-- C4 amended: for every bar series with fewer than 205 raw bars — the
gate at app.py line 156 counts the downloaded rows before any cleaning,
malformed bars included — check_dream_strategy returns no match in
either mode; this is an ordinary none result, not an exception.  The
count is not re-applied to the usable bars: a series with at least 205
raw but fewer than 205 clean bars passes the gate (see the
counterexample). -/
theorem claim_C4 (row : RowData) (df : List Bar) (m : Bool) (h : df.length < 205) :
    check_dream_strategy row df m = none := by
  rw [check_dream_strategy_eq, checkPure, if_pos h]

/-- C4 witness: a 204-bar series is rejected by the sufficiency gate. -/
theorem claim_C4_witness : check_dream_strategy row0 (flatBars 204) true = none :=
  claim_C4 row0 (flatBars 204) true (by simp [length_flatBars])

/-- C2: for every series whose last close is not strictly greater than
each of MA5, MA20, MA60 and MA120 at the last bar (condPrice false),
check_dream_strategy returns no match, in both modes. -/
theorem claim_C2 (row : RowData) (df : List Bar) (m : Bool) (h : condPrice df = false) :
    check_dream_strategy row df m = none := by
  rw [check_dream_strategy_eq, checkPure]
  by_cases h1 : df.length < 205
  · rw [if_pos h1]
  · rw [if_neg h1]
    simp [h]

/-- C2 witness: on a flat 205-bar series the last close equals MA5, so the
alignment gate fails and the evaluation yields no match. -/
theorem claim_C2_witness : check_dream_strategy row0 (flatBars 205) false = none :=
  claim_C2 row0 (flatBars 205) false (by with_unfolding_all rfl)

/-- C3: for every series passing the length and alignment gates, a bias
value of at least 30 forces no match, and every match carries
bias = (MA5_last - MA200_last) / MA200_last * 100 with bias < 30. -/
theorem claim_C3 (row : RowData) (df : List Bar) (m : Bool)
    (hlen : 205 ≤ df.length) (hp : condPrice df = true) :
    (flt (biasVal df) (FVal.num 30) = false → check_dream_strategy row df m = none) ∧
    ∀ r, check_dream_strategy row df m = some r →
      r.bias = biasVal df ∧ flt (biasVal df) (FVal.num 30) = true := by
  constructor
  · intro hb
    rw [check_dream_strategy_eq, checkPure, if_neg (by omega)]
    simp [hp, hb]
  · intro r hr
    rw [check_dream_strategy_eq] at hr
    obtain ⟨_, _, hb, _, _, hre⟩ := checkPure_match row df m r hr
    exact ⟨by rw [hre], hb⟩

/-- C3 witness: the strict-mode match on the rising 210-bar series
carries exactly the bias value of the formula, and it is below 30. -/
theorem claim_C3_witness :
    R210strict.bias = biasVal (risingBars 210) ∧
    flt (biasVal (risingBars 210)) (FVal.num 30) = true :=
  (claim_C3 row0 (risingBars 210) true (by simp [length_risingBars])
    (by with_unfolding_all rfl)).2 R210strict (by with_unfolding_all rfl)

/-- C6: the body of check_dream_strategy never raises for any input
series or mode: it always returns a value, and check_dream_strategy
forwards exactly that value (the catch-all except handler is never
exercised), so one bad series can only produce none, never abort a scan. -/
theorem claim_C6 (row : RowData) (df : List Bar) (m : Bool) :
    check_body row df m = some (check_dream_strategy row df m) := by
  rw [check_body_eq, check_dream_strategy_eq]

/-- C7: for every series with nonnegative finite closes (the data model
invariant) whose MA200 at the last bar is exactly 0, check_dream_strategy
returns no match (and, being total, raises nothing). -/
theorem claim_C7 (row : RowData) (df : List Bar) (m : Bool)
    (hn : closesNonneg df = true) (h0 : ma200last df = FVal.num 0) :
    check_dream_strategy row df m = none := by
  rw [check_dream_strategy_eq, checkPure]
  by_cases h1 : df.length < 205
  · rw [if_pos h1]
  · rw [if_neg h1]
    have hlen : 205 ≤ df.length := by omega
    have hcl : (closes df).length = df.length := by simp [closes]
    have hma : ma200last df = windowMean (lastN (closes df) 200) :=
      maLast_windowMean df 200 (by omega) (by omega)
    have hwlen : (lastN (closes df) 200).length = 200 := length_lastN _ 200 (by omega)
    have hwnn : ∀ v ∈ lastN (closes df) 200, ∃ q : ℚ, v = FVal.num q ∧ 0 ≤ q := by
      intro v hv
      have hvc : v ∈ closes df := mem_of_mem_lastN _ _ v hv
      have hvp := (List.all_eq_true.mp hn) v hvc
      cases v with
      | num q => exact ⟨q, rfl, of_decide_eq_true hvp⟩
      | pinf => simp at hvp
      | ninf => simp at hvp
      | nan => simp at hvp
    have hwall : allNumList (lastN (closes df) 200) = true := by
      rw [allNumList, List.all_eq_true]
      intro v hv
      obtain ⟨q, rfl, _⟩ := hwnn v hv
      rfl
    obtain ⟨qs, hqs⟩ := exists_ratList _ hwall
    have hqlen : qs.length = 200 := by
      rw [hqs, List.length_map] at hwlen
      exact hwlen
    have hqnn : ∀ q ∈ qs, 0 ≤ q := by
      intro q hq
      have hmem : FVal.num q ∈ lastN (closes df) 200 := by
        rw [hqs]
        exact List.mem_map_of_mem _ hq
      obtain ⟨p, hp, hp0⟩ := hwnn _ hmem
      have : q = p := FVal.num.inj hp
      rw [this]
      exact hp0
    have hmean : windowMean (lastN (closes df) 200) = FVal.num 0 := by
      rw [← hma]
      exact h0
    rw [hqs, windowMean_map qs (by
      intro hnil
      rw [hnil] at hqlen
      simp at hqlen)] at hmean
    have hdiv : qs.foldl (· + ·) 0 / (qs.length : ℚ) = 0 := FVal.num.inj hmean
    have hsum : qs.sum = 0 := by
      rw [foldl_add_eq_sum, zero_add] at hdiv
      rcases div_eq_zero_iff.mp hdiv with hz | hz
      · exact hz
      · rw [hqlen] at hz
        norm_num at hz
    have hall0 : ∀ q ∈ qs, q = 0 := sum_zero_of_nonneg qs hqnn hsum
    have hw0 : ∀ v ∈ lastN (closes df) 200, v = FVal.num 0 := by
      intro v hv
      rw [hqs] at hv
      obtain ⟨q, hq, rfl⟩ := List.mem_map.mp hv
      rw [hall0 q hq]
    have hcurr : currPrice df = FVal.num 0 := by
      apply hw0
      exact lastN_mono _ 1 200 (by omega) _ (ilocD_one_mem_lastN _ 1 (by omega) (by omega))
    have hma5 : maLast df 5 = FVal.num 0 := by
      rw [maLast_windowMean df 5 (by omega) (by omega)]
      have h5sub : ∀ v ∈ lastN (closes df) 5, v = FVal.num 0 := by
        intro v hv
        exact hw0 v (lastN_mono _ 5 200 (by omega) v hv)
      have hlen5 : (lastN (closes df) 5).length = 5 := length_lastN _ 5 (by omega)
      have hall : allNumList (lastN (closes df) 5) = true := by
        rw [allNumList, List.all_eq_true]
        intro v hv
        rw [h5sub v hv]
        rfl
      obtain ⟨ps, hps⟩ := exists_ratList _ hall
      have hpslen : ps.length = 5 := by
        rw [hps, List.length_map] at hlen5
        exact hlen5
      have hps0 : ∀ p ∈ ps, p = (0:ℚ) := by
        intro q hq
        have hmem : FVal.num q ∈ lastN (closes df) 5 := by
          rw [hps]
          exact List.mem_map_of_mem _ hq
        exact FVal.num.inj (h5sub _ hmem)
      rw [hps, windowMean_map ps (by
        intro hnil
        rw [hnil] at hpslen
        simp at hpslen)]
      rw [foldl_add_eq_sum, zero_add, List.sum_eq_zero hps0]
      norm_num
    have hcp : condPrice df = false := by
      rw [condPrice, hcurr, hma5]
      simp [fgt, flt]
    simp [hcp]

/-- C7 witness: a 205-bar series of all-zero closes has MA200 exactly 0
at the last bar and yields no match. -/
theorem claim_C7_witness : check_dream_strategy row0 (zeroBars 205) false = none :=
  claim_C7 row0 (zeroBars 205) false (by with_unfolding_all rfl)
    (by with_unfolding_all rfl)

/-- C9 counterexample: the code performs no bar cleaning.  On a 206-bar
series whose last close is NaN, the spec-described pipeline (drop the
malformed bar, re-check sufficiency, evaluate the remaining 205 bars)
produces a strict-mode match, but check_dream_strategy on the raw series
returns no match: the NaN close is counted by the length gate and
propagates into the comparisons instead of being excluded. -/
theorem claim_C9_counterexample :
    specCleanBars nanTailBars = risingBars 205 ∧
    check_dream_strategy row0 nanTailBars true = none ∧
    check_dream_strategy row0 (specCleanBars nanTailBars) true = some R205strict := by
  refine ⟨?_, ?_, ?_⟩
  · with_unfolding_all rfl
  · with_unfolding_all rfl
  · with_unfolding_all rfl

/-- C9 amended: bars with NaN values are not excluded and never
interpolated; the NaN propagates through the rolling windows, so a NaN
close among the last five bars makes MA5 NaN, the alignment comparison
false, and the evaluation returns no match. -/
theorem claim_C9_amended (row : RowData) (df : List Bar) (m : Bool)
    (h : (lastN (closes df) 5).any (fun v => v.isNan) = true) :
    check_dream_strategy row df m = none := by
  rw [check_dream_strategy_eq, checkPure]
  by_cases h1 : df.length < 205
  · rw [if_pos h1]
  · rw [if_neg h1]
    have hcl : (closes df).length = df.length := by simp [closes]
    have hma5 : maLast df 5 = FVal.nan := by
      rw [maLast_windowMean df 5 (by omega) (by omega)]
      apply windowMean_nan
      obtain ⟨v, hv, hnan⟩ := List.any_eq_true.mp h
      exact ⟨v, hv, hnan⟩
    have hcp : condPrice df = false := by
      rw [condPrice, hma5, fgt_nan_right]
      simp
    simp [hcp]

/-- C9 witness for the amended claim: the 206-bar series with a NaN last
close is evaluated to no match (in lenient mode here). -/
theorem claim_C9_witness : check_dream_strategy row0 nanTailBars false = none :=
  claim_C9_amended row0 nanTailBars false (by with_unfolding_all rfl)

/-- C10: for every series with at least 205 but fewer than 210 bars, the
MA200 value 10 periods before the last bar is NaN (its index is below
199), so the lenient-mode endpoint comparison fails and
check_dream_strategy returns no match. -/
theorem claim_C10 (row : RowData) (df : List Bar)
    (h1 : 205 ≤ df.length) (h2 : df.length < 210) :
    ilocD (ma200series df) 11 = FVal.nan ∧
    check_dream_strategy row df false = none := by
  have hcl : (closes df).length = df.length := by simp [closes]
  have hnan : ilocD (ma200series df) 11 = FVal.nan := by
    rw [ma200series, ilocD_rollingMean _ 200 11 (by omega) (by omega)]
    rw [if_pos (by omega)]
  refine ⟨hnan, ?_⟩
  rw [check_dream_strategy_eq, checkPure, if_neg (by omega)]
  cases hp : condPrice df with
  | false => simp [hp]
  | true =>
      have hfalse : condTrend (ma200series df) false = false := by
        have he : condTrend (ma200series df) false = trendLenient (ma200series df) := rfl
        rw [he, trendLenient, hnan, fgt_nan_right]
      simp [hp, hfalse]

/-- C10 witness: the rising 205-bar series, evaluated in lenient mode,
hits the undefined 10-periods-earlier MA200 value and yields no match. -/
theorem claim_C10_witness :
    ilocD (ma200series (risingBars 205)) 11 = FVal.nan ∧
    check_dream_strategy row0 (risingBars 205) false = none :=
  claim_C10 row0 (risingBars 205) (by simp [length_risingBars]) (by simp [length_risingBars])

/-- C1 counterexample: the rising 205-bar series reaches the
trend-direction step and matches in strict mode, yet the ten day-over-day
deltas of the last-11-value MA200 window are not all strictly positive:
five of them are undefined (NaN), because the window begins before index
199.  The pandas dropna step discards them before the all-positive test,
so the match is decided on only the five defined deltas. -/
theorem claim_C1_counterexample :
    check_dream_strategy row0 (risingBars 205) true = some R205strict ∧
    (specDeltas (lastN (ma200series (risingBars 205)) 11)).length = 10 ∧
    allPos (specDeltas (lastN (ma200series (risingBars 205)) 11)) = false := by
  refine ⟨?_, ?_, ?_⟩
  · with_unfolding_all rfl
  · with_unfolding_all rfl
  · with_unfolding_all rfl

/-- C1 amended: the trend-direction step works on the last 11 values of
the MA200 and VolMA20 series; in strict mode the deltas whose endpoints
are defined must all be strictly positive (NaN deltas are dropped by the
dropna step, so with 205 to 209 bars as few as five MA200 deltas are
checked); for a series of at least 210 bars with no missing values this
is exactly the condition that all 10 deltas of both windows are strictly
positive, and in lenient mode a match requires the last value to strictly
exceed the value 10 periods earlier in both series. -/
theorem claim_C1_amended (row : RowData) (df : List Bar) (m : Bool) (r : StrategyResult)
    (hlen : 210 ≤ df.length) (hnum : allNumBars df = true)
    (hm : check_dream_strategy row df m = some r) :
    (m = true →
      (specDeltas (lastN (ma200series df) 11)).length = 10 ∧
      allPos (specDeltas (lastN (ma200series df) 11)) = true ∧
      (specDeltas (lastN (volMA20series df) 11)).length = 10 ∧
      allPos (specDeltas (lastN (volMA20series df) 11)) = true) ∧
    (m = false →
      fgt (ilocD (ma200series df) 1) (ilocD (ma200series df) 11) = true ∧
      fgt (ilocD (volMA20series df) 1) (ilocD (volMA20series df) 11) = true) := by
  rw [check_dream_strategy_eq] at hm
  obtain ⟨h205, hp, hb, hma, hvol, hr⟩ := checkPure_match row df m r hm
  have hclen : (closes df).length = df.length := by simp [closes]
  have hvlen : (volumes df).length = df.length := by simp [volumes]
  rw [allNumBars, Bool.and_eq_true] at hnum
  obtain ⟨hnc, hnv⟩ := hnum
  have hmlen : 11 ≤ (ma200series df).length := by
    rw [ma200series, length_rollingMean]
    omega
  have hvlen2 : 11 ≤ (volMA20series df).length := by
    rw [volMA20series, length_rollingMean]
    omega
  have hma11 : allNumList (lastN (ma200series df) 11) = true := by
    rw [ma200series]
    exact allNum_lastN_rollingMean (closes df) 200 (by omega) hnc (by omega)
  have hvol11 : allNumList (lastN (volMA20series df) 11) = true := by
    rw [volMA20series]
    exact allNum_lastN_rollingMean (volumes df) 20 (by omega) hnv (by omega)
  constructor
  · intro hmt
    subst hmt
    have hsm : trendStrict (ma200series df) = true := hma
    have hsv : trendStrict (volMA20series df) = true := hvol
    rw [trendStrict_spec _ hmlen hma11] at hsm
    rw [trendStrict_spec _ hvlen2 hvol11] at hsv
    refine ⟨?_, hsm, ?_, hsv⟩
    · rw [specDeltas, List.length_zipWith, List.length_drop, length_lastN _ 11 hmlen]
      omega
    · rw [specDeltas, List.length_zipWith, List.length_drop, length_lastN _ 11 hvlen2]
      omega
  · intro hmf
    subst hmf
    exact ⟨hma, hvol⟩

/-- C1 witness for the amended claim: on the rising 210-bar series, the
strict-mode match indeed comes with all 10 deltas of both windows
defined and strictly positive. -/
theorem claim_C1_witness :
    (specDeltas (lastN (ma200series (risingBars 210)) 11)).length = 10 ∧
    allPos (specDeltas (lastN (ma200series (risingBars 210)) 11)) = true ∧
    (specDeltas (lastN (volMA20series (risingBars 210)) 11)).length = 10 ∧
    allPos (specDeltas (lastN (volMA20series (risingBars 210)) 11)) = true :=
  (claim_C1_amended row0 (risingBars 210) true R210strict (by simp [length_risingBars])
    (by with_unfolding_all rfl) (by with_unfolding_all rfl)).1 rfl

/-- C5 counterexample: the rising 205-bar series matches in strict mode
but does not match in lenient mode, because the lenient endpoint
comparison reads the MA200 value at index 194, which is NaN, while the
strict check only sees the five defined deltas.  Strict mode is therefore
not at least as restrictive as lenient mode. -/
theorem claim_C5_counterexample :
    check_dream_strategy row0 (risingBars 205) true = some R205strict ∧
    check_dream_strategy row0 (risingBars 205) false = none := by
  constructor
  · with_unfolding_all rfl
  · with_unfolding_all rfl

/-- C5 amended: for series of at least 210 bars with no missing values,
strict mode is at least as restrictive as lenient mode: a strict-mode
match implies a lenient-mode match (the alignment and bias gates are
identical, and ten strictly positive deltas telescope to a strictly
larger endpoint). -/
theorem claim_C5_amended (row : RowData) (df : List Bar)
    (hlen : 210 ≤ df.length) (hnum : allNumBars df = true)
    (hm : (check_dream_strategy row df true).isSome = true) :
    (check_dream_strategy row df false).isSome = true := by
  rw [check_dream_strategy_eq] at hm ⊢
  obtain ⟨r, hr⟩ := Option.isSome_iff_exists.mp hm
  obtain ⟨h205, hp, hb, hma, hvol, _⟩ := checkPure_match row df true r hr
  rw [allNumBars, Bool.and_eq_true] at hnum
  obtain ⟨hnc, hnv⟩ := hnum
  have hclen : (closes df).length = df.length := by simp [closes]
  have hvlen : (volumes df).length = df.length := by simp [volumes]
  have hmlen : 11 ≤ (ma200series df).length := by
    rw [ma200series, length_rollingMean]
    omega
  have hvlen2 : 11 ≤ (volMA20series df).length := by
    rw [volMA20series, length_rollingMean]
    omega
  have hma11 : allNumList (lastN (ma200series df) 11) = true := by
    rw [ma200series]
    exact allNum_lastN_rollingMean _ 200 (by omega) hnc (by omega)
  have hvol11 : allNumList (lastN (volMA20series df) 11) = true := by
    rw [volMA20series]
    exact allNum_lastN_rollingMean _ 20 (by omega) hnv (by omega)
  have hlm : trendLenient (ma200series df) = true :=
    trendStrict_imp_lenient _ hmlen hma11 hma
  have hlv : trendLenient (volMA20series df) = true :=
    trendStrict_imp_lenient _ hvlen2 hvol11 hvol
  rw [checkPure, if_neg (by omega)]
  simp [condTrend, hp, hb, hlm, hlv]

/-- C5 witness for the amended claim: the rising 210-bar series matches
in strict mode and, as implied, also in lenient mode. -/
theorem claim_C5_witness : (check_dream_strategy row0 (risingBars 210) false).isSome = true :=
  claim_C5_amended row0 (risingBars 210) (by simp [length_risingBars])
    (by with_unfolding_all rfl) (by with_unfolding_all rfl)


end TWStock
